import Mathlib

/-!
Verification development for the VNDN-BC roadside-unit (RSU) blockchain core.

The C++ sources (`vanet-blockchain-app.cc`, `VanetBlock.hpp`,
`AdaptiveBatchManager` and the application header) are shallowly embedded
here.  C++ `std::string` is represented as `List Char` (named `Str`),
`double` as `ℚ` (exact arithmetic; the algorithms only use +, -, *, /,
min/max and comparisons, except the batch controller which uses `exp` and
is therefore embedded over `ℝ`), ns-3 `Time` as `ℤ` (its internal integer
time-step count, nanosecond resolution), and the `std::map`/
`std::unordered_map` members as association lists.
-/

namespace VndnBc

/-- Representation of C++ `std::string`: a list of characters. -/
abbrev Str := List Char

/-! ## Configuration constants

Values are taken from the initializer list of the `VanetBlockchainApp`
constructor and the constant members declared in the application header. -/

/-- Model of `HISTORY_WINDOW_N = 20` (application header). -/
def HISTORY_WINDOW_N : ℕ := 20

/-- Model of `WEIGHT_RPF = 0.6` (application header), the w₁ suspicion weight. -/
def WEIGHT_RPF : ℚ := 6/10

/-- Model of `WEIGHT_VOL = 0.4` (application header), the w₂ suspicion weight. -/
def WEIGHT_VOL : ℚ := 4/10

/-- Model of `DECAY_GAMMA = 0.90` (application header). -/
def DECAY_GAMMA : ℚ := 9/10

/-- Model of `CONFIDENCE_THRESHOLD_TAU = 0.70` (application header). -/
def CONFIDENCE_THRESHOLD_TAU : ℚ := 7/10

/-- Model of `m_alpha(0.05)` — reward rate (constructor initializer list). -/
def mAlpha : ℚ := 5/100

/-- Model of `m_beta(0.35)` — penalty rate (constructor initializer list). -/
def mBeta : ℚ := 35/100

/-- Model of `m_distanceThreshold(50.0)` (constructor initializer list).  The code
compares the Euclidean distance against this bound; the embedding compares
squared distance against `distanceThresholdSq = 50²`, which is equivalent
since both sides are nonnegative. -/
def distanceThresholdSq : ℚ := 2500

/-- Model of `m_timeThreshold(Seconds(10.0))` in ns-3 time steps (1 s = 10⁹ ns). -/
def timeThresholdSteps : ℤ := 10000000000

/-! ## Reputation ledger (`m_vehicleReputations`) -/

/-- Association-list lookup for a `Str`-keyed map with `ℚ` values,
modelling `std::map<std::string,double>::count`/`operator[]` reads. -/
def lookupQ : List (Str × ℚ) → Str → Option ℚ
  | [], _ => none
  | (k, v) :: t, key => if k = key then some v else lookupQ t key

/-- Association-list store, modelling `m[k] = v` on a `std::map`. -/
def storeQ : List (Str × ℚ) → Str → ℚ → List (Str × ℚ)
  | [], key, v => [(key, v)]
  | (k, w) :: t, key, v =>
      if k = key then (k, v) :: t else (k, w) :: storeQ t key v

/-- Internal reputation read used by `CalculateEventCredibility` (line
1326) and `UpdateReputations` (line 1435):
`m_vehicleReputations.count(id) ? m_vehicleReputations[id] : 0.5`. -/
def getReputationInternal (reps : List (Str × ℚ)) (vehicleId : Str) : ℚ :=
  match lookupQ reps vehicleId with
  | some r => r
  | none => 1/2

/-- Model of `VanetBlockchainApp::HandleReputationRequest` (line 1059): the value
serialized into the reply Data packet is
`m_vehicleReputations.count(id) ? m_vehicleReputations[id] : -1.0`. -/
def handleReputationRequestValue (reps : List (Str × ℚ)) (vehicleId : Str) : ℚ :=
  match lookupQ reps vehicleId with
  | some r => r
  | none => -1

/-- Clamp used at the end of a reputation update:
`std::max(0.0, std::min(1.0, newRep))`. -/
def clamp01 (x : ℚ) : ℚ := max 0 (min 1 x)

/-- One reputation update step from `VanetBlockchainApp::UpdateReputations`
(lines 1441-1451): `delta_R = alpha*(1-oldRep)` on a correct report,
`delta_R = -beta*oldRep` on an incorrect one; `newRep = oldRep + delta_R`
clamped to [0,1]. -/
def updateReputationStep (alpha beta oldRep : ℚ) (isCorrect : Bool) : ℚ :=
  let delta : ℚ := if isCorrect then alpha * (1 - oldRep) else -(beta * oldRep)
  clamp01 (oldRep + delta)

/-- Iterated application of reward/penalty steps to one vehicle's
reputation, for a sequence of correctness outcomes. -/
def applyOutcomes (alpha beta : ℚ) (rep0 : ℚ) (outcomes : List Bool) : ℚ :=
  outcomes.foldl (fun r b => updateReputationStep alpha beta r b) rep0

/-! ## Outcome history and suspicion score (`m_vehicleReportHistory`) -/

/-- Association-list lookup for the per-vehicle outcome history map.
An outcome is stored as `1` (correct) or `0` (incorrect) in the C++ deque;
here it is a `Bool` (`true` = 1). -/
def lookupH : List (Str × List Bool) → Str → Option (List Bool)
  | [], _ => none
  | (k, v) :: t, key => if k = key then some v else lookupH t key

/-- Association-list store for the history map. -/
def storeH : List (Str × List Bool) → Str → List Bool → List (Str × List Bool)
  | [], key, v => [(key, v)]
  | (k, w) :: t, key, v =>
      if k = key then (k, v) :: t else (k, w) :: storeH t key v

/-- History of a vehicle; a missing entry behaves as the empty deque. -/
def historyOf (hists : List (Str × List Bool)) (vehicleId : Str) : List Bool :=
  (lookupH hists vehicleId).getD []

/-- Model of `VanetBlockchainApp::UpdateLocalHistory` (lines 1307-1315): push the
outcome at the back, then pop the front once if the size exceeds
`HISTORY_WINDOW_N`. -/
def updateLocalHistory (hist : List Bool) (isCorrect : Bool) : List Bool :=
  let h := hist ++ [isCorrect]
  if HISTORY_WINDOW_N < h.length then h.tail else h

/-- Numeric value of a stored outcome (`1` or `0`). -/
def outcomeVal (b : Bool) : ℚ := if b then 1 else 0

/-- Numerator and denominator of the recency-weighted performance factor
(`CalculateSuspicionScore`, lines 1278-1286).  The entry at index `i` of a
history of length `N` receives weight `DECAY_GAMMA ^ (N - 1 - i)`; in this
right-fold formulation the entry followed by `k` later entries receives
weight `DECAY_GAMMA ^ k`, which is the same assignment. -/
def rpfParts : List Bool → ℚ × ℚ
  | [] => (0, 0)
  | b :: t =>
      let p := rpfParts t
      (p.1 + outcomeVal b * DECAY_GAMMA ^ t.length,
       p.2 + DECAY_GAMMA ^ t.length)

/-- Recency-weighted performance factor RPF (line 1288):
`(denominator > 0) ? numerator / denominator : 0`. -/
def calculateRPF (hist : List Bool) : ℚ :=
  let p := rpfParts hist
  if 0 < p.2 then p.1 / p.2 else 0

/-- Sum of absolute differences of consecutive history entries
(lines 1293-1296). -/
def volatilitySum : List Bool → ℚ
  | [] => 0
  | [_] => 0
  | a :: b :: t => |outcomeVal b - outcomeVal a| + volatilitySum (b :: t)

/-- Volatility factor F_vol (lines 1291-1298): mean absolute consecutive
difference, `0` when fewer than two entries. -/
def volatilityFactor (hist : List Bool) : ℚ :=
  if 1 < hist.length then volatilitySum hist / (hist.length - 1 : ℚ) else 0

/-- Model of `VanetBlockchainApp::CalculateSuspicionScore` (lines 1268-1304) as a
function of the vehicle's stored history: `0` for an absent or empty
history, otherwise `WEIGHT_RPF * (1 - RPF) + WEIGHT_VOL * F_vol`. -/
def calculateSuspicionScore (hist : List Bool) : ℚ :=
  if hist = [] then 0
  else WEIGHT_RPF * (1 - calculateRPF hist) + WEIGHT_VOL * volatilityFactor hist

/-! ## Event reports and clusters -/

/-- ns-3 `Vector` (3D position; reports parsed from the wire always set
`z = 0`, but the field exists). -/
structure Vec where
  x : ℚ
  y : ℚ
  z : ℚ
deriving DecidableEq, Repr

/-- Model of `EventReport` (application header).  `timestamp` and `receivedTime`
are ns-3 `Time` values as integer time steps. -/
structure EventReport where
  vehicleId : Str
  reportedEventType : Str
  originalEventType : Str
  location : Vec
  timestamp : ℤ
  signature : Str
  seqNum : ℕ
  receivedTime : ℤ
deriving DecidableEq, Repr

/-- Model of `EventCluster` (application header).  The ns-3 `EventId` timer handle
and the three auxiliary score fields that no modelled code path reads are
omitted. -/
structure EventCluster where
  eventId : Str
  eventType : Str
  centerLocation : Vec
  centerTime : ℤ
  reports : List EventReport
  creationTime : ℤ
  decisionMade : Bool
deriving DecidableEq, Repr

/-- Squared Euclidean distance.  `CalculateDistance` computes
`sqrt(distSq)` and `FindMatchingCluster` tests `dist < 50`; the embedding
tests `distSq < 50²`, equivalent since both sides are nonnegative. -/
def distSq (p q : Vec) : ℚ :=
  (p.x - q.x) ^ 2 + (p.y - q.y) ^ 2 + (p.z - q.z) ^ 2

/-- Absolute time difference as computed in `FindMatchingCluster`
(lines 1186-1188) by a comparison and a subtraction. -/
def timeAbsDiff (a b : ℤ) : ℤ := if b < a then a - b else b - a

/-- Event-category matching of `FindMatchingCluster` (lines 1191-1203):
exact equality, or one of the six hard-coded related pairs. -/
def typeMatch (rt ct : Str) : Bool :=
  if rt = ct then true
  else if (rt = "Accident".toList ∧ ct = "Breakdown".toList) ∨
          (rt = "Breakdown".toList ∧ ct = "Accident".toList) ∨
          (rt = "Jam".toList ∧ ct = "Construction".toList) ∨
          (rt = "Construction".toList ∧ ct = "Jam".toList) ∨
          (rt = "Roadwork".toList ∧ ct = "Construction".toList) ∨
          (rt = "Construction".toList ∧ ct = "Roadwork".toList) then true
  else false

/-- Full matching condition of `FindMatchingCluster` (line 1205).  Note
that the code matches on the report's `originalEventType` (the
originating/ground label), not on `reportedEventType` (the claimed
label). -/
def clusterMatch (r : EventReport) (c : EventCluster) : Bool :=
  typeMatch r.originalEventType c.eventType
    && decide (distSq r.location c.centerLocation < distanceThresholdSq)
    && decide (timeAbsDiff r.timestamp c.centerTime < timeThresholdSteps)

/-- Model of `VanetBlockchainApp::FindMatchingCluster` (lines 1180-1210): scan the
active clusters, skip decided ones, return the first whose category,
distance and time offset all match; `none` models the empty-string
"no match" return. -/
def findMatchingCluster : List (Str × EventCluster) → EventReport → Option Str
  | [], _ => none
  | (id, c) :: t, r =>
      if c.decisionMade = false ∧ clusterMatch r c = true then some id
      else findMatchingCluster t r

/-- Decimal rendering of an integer, for `std::to_string` on integral
values. -/
def intToStr (n : ℤ) : Str := (toString n).toList

/-- Decimal rendering of a `ℚ` standing in for C++ `std::to_string` /
stream output on a `double`.  The exact textual format is an external
formatting detail; no claim inspects the digits. -/
def qToStr (q : ℚ) : Str := (toString q).toList

/-- Cluster id built in `ProcessEventReport` (line 1234):
`"Evt_" + vehicleId + "_" + to_string(timestamp time step)`. -/
def newClusterId (r : EventReport) : Str :=
  "Evt_".toList ++ r.vehicleId ++ "_".toList ++ intToStr r.timestamp

/-- Fresh cluster created from an unmatched report
(`ProcessEventReport`, lines 1233-1240). -/
def mkNewCluster (now : ℤ) (r : EventReport) : EventCluster :=
  { eventId := newClusterId r
    eventType := r.originalEventType
    centerLocation := r.location
    centerTime := r.timestamp
    reports := [r]
    creationTime := now
    decisionMade := false }

/-- Model of `m_activeClusters[clusterId].reports.push_back(report)`
(line 1246). -/
def appendReportToCluster :
    List (Str × EventCluster) → Str → EventReport → List (Str × EventCluster)
  | [], _, _ => []
  | (k, c) :: t, id, r =>
      if k = id then (k, { c with reports := c.reports ++ [r] }) :: t
      else (k, c) :: appendReportToCluster t id r

/-- Clustering step of `VanetBlockchainApp::ProcessEventReport`
(lines 1231-1249), after the signature check: the report either joins the
first matching open cluster or opens a new one. -/
def processEventReport (now : ℤ) (clusters : List (Str × EventCluster))
    (r : EventReport) : List (Str × EventCluster) :=
  match findMatchingCluster clusters r with
  | none => clusters ++ [(newClusterId r, mkNewCluster now r)]
  | some id => appendReportToCluster clusters id r

/-! ## Transactions -/

/-- Model of `TransactionType` (`VanetBlock.hpp`). -/
inductive TransactionType where
  | REGISTRATION
  | EVENT_DECISION
  | REPUTATION_UPDATE
deriving DecidableEq, Repr

/-- Model of `Transaction` (`VanetBlock.hpp`), a unified record; only the fields
relevant to `type` are populated.  Defaults are the C++ member
initializers (strings default-construct empty). -/
structure Transaction where
  type : TransactionType
  timestamp : ℤ := 0
  vehicleId_reg : Str := []
  publicKey : Str := []
  initialReputation : ℚ := 1/2
  eventId_dec : Str := []
  eventType : Str := []
  eventLocation : Str := []
  eventTimestamp : ℤ := 0
  eventReports : List (Str × Str) := []
  eventVerdict : Str := []
  eventCredibility : ℚ := 0
  vehicleId_rep : Str := []
  eventId_rep : Str := []
  oldReputation : ℚ := 0
  newReputation : ℚ := 0
deriving DecidableEq, Repr

/-! ## Credibility computation and event decision -/

/-- Ledger state owned by one RSU: `m_vehicleReputations` and
`m_vehicleReportHistory`. -/
structure LedgerState where
  reps : List (Str × ℚ)
  hists : List (Str × List Bool)
deriving DecidableEq, Repr

/-- Raw trust factor of one reporter (`CalculateEventCredibility`,
lines 1325-1332): `baseRep * (1 - suspicion)`, base reputation defaulting
to 0.5 for unknown vehicles. -/
def rawTrustFactor (st : LedgerState) (v : Str) : ℚ :=
  getReputationInternal st.reps v *
    (1 - calculateSuspicionScore (historyOf st.hists v))

/-- Running minimum of trust factors, seeded with `T_min = 1.0`
(lines 1322, 1337). -/
def tMinOf (st : LedgerState) (reports : List EventReport) : ℚ :=
  reports.foldl (fun m r => min m (rawTrustFactor st r.vehicleId)) 1

/-- Running maximum of trust factors, seeded with `T_max = 0.0`
(lines 1323, 1338). -/
def tMaxOf (st : LedgerState) (reports : List EventReport) : ℚ :=
  reports.foldl (fun m r => max m (rawTrustFactor st r.vehicleId)) 0

/-- Min-max normalized trust of a reporter (lines 1345-1355): `0.5` for
every member when `|T_max - T_min| < 1e-6`, else
`(T - T_min) / (T_max - T_min)`. -/
def normTrust (st : LedgerState) (reports : List EventReport) (v : Str) : ℚ :=
  if |tMaxOf st reports - tMinOf st reports| < 1/1000000 then 1/2
  else (rawTrustFactor st v - tMinOf st reports) /
        (tMaxOf st reports - tMinOf st reports)

/-- Model of `sumT_all`: total normalized trust over all reports (line 1354). -/
def sumTAll (st : LedgerState) (reports : List EventReport) : ℚ :=
  (reports.map (fun r => normTrust st reports r.vehicleId)).sum

/-- First-occurrence deduplication, as built by the `uniqueClaims`
accumulation loop (lines 1363-1369). -/
def uniqueFirst : List Str → List Str
  | [] => []
  | c :: t => c :: uniqueFirst (t.filter (fun x => x ≠ c))
termination_by l => l.length
decreasing_by
  simp only [List.length_cons]
  exact Nat.lt_succ_of_le (List.length_filter_le _ _)

/-- Distinct claimed labels of a cluster, in first-encounter order. -/
def uniqueClaimsOf (reports : List EventReport) : List Str :=
  uniqueFirst (reports.map (·.reportedEventType))

/-- Model of `sumT_supporters` for one claimed label (lines 1373-1378). -/
def supportSum (st : LedgerState) (reports : List EventReport)
    (claim : Str) : ℚ :=
  ((reports.filter (fun r => r.reportedEventType = claim)).map
      (fun r => normTrust st reports r.vehicleId)).sum

/-- Confidence of one claimed label (line 1381):
`sumT_all > 0 ? supporters / sumT_all : 0`. -/
def claimConfidence (st : LedgerState) (reports : List EventReport)
    (claim : Str) : ℚ :=
  if 0 < sumTAll st reports then supportSum st reports claim / sumTAll st reports
  else 0

/-- Maximum-confidence search (lines 1386-1394), seeded with
`("Unknown", -1)` and keeping the previous label on ties (strict `>`).
The C++ iterates `claimConfidenceMap`, a `std::map` ordered by label; this
fold visits labels in first-encounter order instead, which selects the
same label whenever the maximum confidence is uniquely attained. -/
def winnerFold (st : LedgerState) (reports : List EventReport) : Str × ℚ :=
  (uniqueClaimsOf reports).foldl
    (fun acc claim =>
      if acc.2 < claimConfidence st reports claim
      then (claim, claimConfidence st reports claim) else acc)
    ("Unknown".toList, -1)

/-- The winning outcome label. -/
def winningClaim (st : LedgerState) (reports : List EventReport) : Str :=
  (winnerFold st reports).1

/-- Model of `C_max`, the winning confidence. -/
def maxConfidence (st : LedgerState) (reports : List EventReport) : ℚ :=
  (winnerFold st reports).2

/-- Verdict (lines 1397-1404): `"VALIDATED"` iff
`C_max > CONFIDENCE_THRESHOLD_TAU`, else `"UNCERTAIN"`. -/
def verdictOf (st : LedgerState) (reports : List EventReport) : Str :=
  if CONFIDENCE_THRESHOLD_TAU < maxConfidence st reports
  then "VALIDATED".toList else "UNCERTAIN".toList

/-- EventDecision transaction built by `InitiateEventDecision`
(lines 1080-1097) from the values passed at line 1416. -/
def mkEventDecisionTx (now : ℤ) (c : EventCluster) (winner verdict : Str)
    (cred : ℚ) (reportList : List (Str × Str)) : Transaction :=
  { type := .EVENT_DECISION
    timestamp := now
    eventId_dec := c.eventId
    eventType := winner
    eventLocation := qToStr c.centerLocation.x ++ "_".toList ++
                     qToStr c.centerLocation.y
    eventTimestamp := c.centerTime
    eventReports := reportList
    eventVerdict := verdict
    eventCredibility := cred }

/-- Ledger mutation for one report in the `UpdateReputations` loop
(lines 1434-1457): classify the report against the ground-truth label
(`isCorrect = (reportedEventType == groundTruth)`), apply the
reward/penalty step, store the clamped new reputation, and extend the
vehicle's outcome history. -/
def ledgerStep (st : LedgerState) (r : EventReport) (groundTruth : Str) :
    LedgerState :=
  let oldRep := getReputationInternal st.reps r.vehicleId
  let isCorrect : Bool := r.reportedEventType = groundTruth
  let newRep := updateReputationStep mAlpha mBeta oldRep isCorrect
  { reps := storeQ st.reps r.vehicleId newRep
    hists := storeH st.hists r.vehicleId
               (updateLocalHistory (historyOf st.hists r.vehicleId) isCorrect) }

/-- ReputationUpdate transaction emitted for one report
(`InitiateReputationUpdate`, lines 1099-1110, called at line 1462 with the
pre- and post-update reputations). -/
def reputationTxFor (now : ℤ) (eventId : Str) (st : LedgerState)
    (r : EventReport) (groundTruth : Str) : Transaction :=
  let oldRep := getReputationInternal st.reps r.vehicleId
  let isCorrect : Bool := r.reportedEventType = groundTruth
  { type := .REPUTATION_UPDATE
    timestamp := now
    vehicleId_rep := r.vehicleId
    eventId_rep := eventId
    oldReputation := oldRep
    newReputation := updateReputationStep mAlpha mBeta oldRep isCorrect }

/-- Per-report iteration of the `UpdateReputations` loop (lines
1434-1470): each report mutates the ledger and emits a ReputationUpdate
transaction, in report order. -/
def updateReputationsFold (now : ℤ) (eventId groundTruth : Str) :
    LedgerState → List EventReport → LedgerState × List Transaction
  | st, [] => (st, [])
  | st, r :: rest =>
      let p := updateReputationsFold now eventId groundTruth
        (ledgerStep st r groundTruth) rest
      (p.1, reputationTxFor now eventId st r groundTruth :: p.2)

/-- Model of `VanetBlockchainApp::UpdateReputations` (lines 1423-1471): a no-op
unless the verdict is `"VALIDATED"`. -/
def updateReputations (now : ℤ) (st : LedgerState) (c : EventCluster)
    (verdict groundTruth : Str) : LedgerState × List Transaction :=
  if verdict ≠ "VALIDATED".toList then (st, [])
  else updateReputationsFold now c.eventId groundTruth st c.reports

/-- Model of `VanetBlockchainApp::CalculateEventCredibility` (lines 1317-1422):
returns the ledger state after the decision together with the emitted
transactions (the EventDecision first, then any ReputationUpdates).  An
empty cluster is a no-op (line 1318). -/
def calculateEventCredibility (now : ℤ) (st : LedgerState)
    (c : EventCluster) : LedgerState × List Transaction :=
  if c.reports = [] then (st, [])
  else
    let winner := winningClaim st c.reports
    let cmax := maxConfidence st c.reports
    let verdict := verdictOf st c.reports
    let reportList := c.reports.map (fun r => (r.vehicleId, r.reportedEventType))
    let evtTx := mkEventDecisionTx now c winner verdict cmax reportList
    let p := updateReputations now st c verdict winner
    (p.1, evtTx :: p.2)

/-! ## Transaction serialization (`Transaction::serialize`, lines 1858-1886) -/

/-- Decimal rendering of a natural number (stream output of an unsigned
integral). -/
def natToStr (n : ℕ) : Str := (toString n).toList

/-- Model of `Transaction::serialize`: `"REG:id:key:rep"` (or the error constant
when the id or key is empty), `"REP:id:old:new"`, `"EVT:eventId:verdict"`.
The C++ `else` branch for an out-of-range enum value is unreachable for
the exhaustive `TransactionType` and is not represented; the final
empty-result guard is kept. -/
def serializeTransaction (tx : Transaction) : Str :=
  let result :=
    match tx.type with
    | .REGISTRATION =>
        if tx.vehicleId_reg = [] ∨ tx.publicKey = [] then
          "REG:ERROR:ERROR:0.5".toList
        else
          "REG:".toList ++ tx.vehicleId_reg ++ ":".toList ++ tx.publicKey ++
            ":".toList ++ qToStr tx.initialReputation
    | .REPUTATION_UPDATE =>
        "REP:".toList ++ tx.vehicleId_rep ++ ":".toList ++
          qToStr tx.oldReputation ++ ":".toList ++ qToStr tx.newReputation
    | .EVENT_DECISION =>
        "EVT:".toList ++ tx.eventId_dec ++ ":".toList ++ tx.eventVerdict
  if result = [] then "ERROR:EMPTY".toList else result

/-! ## Blocks and the local chain -/

/-- Model of `VanetBlock` (`VanetBlock.hpp`), with the C++ member initializers as
defaults. -/
structure VanetBlock where
  height : ℕ := 0
  timestamp : ℤ := 0
  previousHash : Str := "0".toList
  blockHash : Str := []
  proposerId : Str := []
  transactions : List Transaction := []
  consensusSignatures : List (Str × Str) := []
deriving DecidableEq, Repr

/-- Content pre-image of `VanetBlock::calculateHash`: the stream
`height << timestamp << previousHash << proposerId` followed by every
transaction's serialization.  `calculateHash` itself is the hex encoding
of OpenSSL's SHA-256 over this string; the compression function is an
external library call, so only its pre-image is modelled — equal
pre-images yield equal recomputed hashes. -/
def blockContents (b : VanetBlock) : Str :=
  natToStr b.height ++ intToStr b.timestamp ++ b.previousHash ++
    b.proposerId ++ (b.transactions.map serializeTransaction).flatten

/-- Model of `m_localBlockchain.back().blockHash` (the chain is never empty: a
genesis block is pushed in the constructor). -/
def lastBlockHash (chain : List VanetBlock) : Str :=
  match chain.getLast? with
  | some b => b.blockHash
  | none => []

/-- Model of `VanetBlockchainApp::AddBlockToChain` (lines 1893-1920), restricted to
its effect on the chain: reject on a previous-hash mismatch with the chain
tip, no-op when the block hash is already present, otherwise append. -/
def addBlockToChain (chain : List VanetBlock) (b : VanetBlock) :
    List VanetBlock :=
  if b.previousHash ≠ lastBlockHash chain then chain
  else if chain.any (fun eb => eb.blockHash = b.blockHash) then chain
  else chain ++ [b]

/-! ## PBFT consensus state machine -/

/-- Model of `PbftPhase` (application header, line 165). -/
inductive PbftPhase where
  | IDLE
  | PRE_PREPARE_SENT
  | PRE_PREPARE_RECEIVED
  | PREPARE_SENT
  | COMMIT_SENT
  | COMMITTED
deriving DecidableEq, Repr

/-- Model of `PbftBlockState` (application header).  The vote maps are keyed by
voter id; only the key sets matter for counting, so they are lists of
distinct voter ids (insertion is guarded by a membership test, as in the
code). -/
structure PbftBlockState where
  block : VanetBlock
  phase : PbftPhase := .IDLE
  view : ℕ := 0
  seqNum : ℕ := 0
  proposerId : Str := []
  prepareVotes : List Str := []
  commitVotes : List Str := []
deriving DecidableEq, Repr

/-- Lookup in `m_pbftActiveConsensus`. -/
def lookupP : List (Str × PbftBlockState) → Str → Option PbftBlockState
  | [], _ => none
  | (k, v) :: t, key => if k = key then some v else lookupP t key

/-- Store into `m_pbftActiveConsensus`. -/
def storeP : List (Str × PbftBlockState) → Str → PbftBlockState →
    List (Str × PbftBlockState)
  | [], key, v => [(key, v)]
  | (k, w) :: t, key, v =>
      if k = key then (k, v) :: t else (k, w) :: storeP t key v

/-- Model of `m_pbftActiveConsensus.erase(blockHash)`. -/
def eraseP : List (Str × PbftBlockState) → Str → List (Str × PbftBlockState)
  | [], _ => []
  | (k, v) :: t, key => if k = key then t else (k, v) :: eraseP t key

/-- Per-node consensus-relevant state: the local chain, the active
consensus rounds, and the transaction pool. -/
structure NodeState where
  chain : List VanetBlock
  active : List (Str × PbftBlockState)
  pool : List Transaction
deriving DecidableEq, Repr

/-- Fault bound from `VanetBlockchainApp::SetRsuList` (lines 137-146):
`f = (n - 1) / 3` (integer division) for a positive replica count `n`,
`0` otherwise. -/
def computeF (n : ℕ) : ℕ := if 0 < n then (n - 1) / 3 else 0

/-- Model of `VanetBlockchainApp::HandleCommit` (lines 1795-1856): ignore votes for
unknown rounds, for committed rounds, and duplicate voters; otherwise
record the vote and, once `2f+1` distinct commit voters are recorded,
append the round's block via `AddBlockToChain`, drop the included
transactions from the pool, and destroy the round state.  (The transient
`phase = COMMITTED` assignment is immediately followed by the erasure of
the round and has no further effect.) -/
def handleCommit (f : ℕ) (s : NodeState) (blockHash voterId : Str) :
    NodeState :=
  match lookupP s.active blockHash with
  | none => s
  | some st =>
      if st.phase = .COMMITTED then s
      else if voterId ∈ st.commitVotes then s
      else
        let st' := { st with commitVotes := st.commitVotes ++ [voterId] }
        if 2 * f + 1 ≤ st'.commitVotes.length then
          { chain := addBlockToChain s.chain st'.block
            active := eraseP s.active blockHash
            pool := s.pool.filter (fun ptx =>
              ¬ st'.block.transactions.any
                  (fun btx => serializeTransaction btx = serializeTransaction ptx)) }
        else
          { s with active := storeP s.active blockHash st' }

/-! ## Adaptive batch manager (`AdaptiveBatchManager`) -/

/-- Model of `m_batchMin(50)` (constructor initializer list). -/
def batchMinR : ℝ := 50

/-- Model of `m_batchMax(200)` (constructor initializer list). -/
def batchMaxR : ℝ := 200

/-- Model of `m_batchBase(100)` (constructor initializer list). -/
def batchBaseR : ℝ := 100

/-- Model of `m_latencyMax(3.0)` (constructor initializer list). -/
def latencyMaxR : ℝ := 3

/-- Model of `AdaptiveBatchManager::CalculateAdaptiveBatchSize` (DABP), the double
value before the integral cast: rate factor `λ(t)/λ_avg` (defaulting to 1
unless the average rate is positive), latency factor `e^(−L(t)/L_max)`,
congestion adjustment `1/congestion`, product scaled by the base size and
clamped to `[B_min, B_max]`. -/
noncomputable def calculateAdaptiveBatchSizeReal
    (rate avgRate latency congestion : ℝ) : ℝ :=
  let rateFactor := if 0 < avgRate then rate / avgRate else 1
  let latencyFactor := Real.exp (-latency / latencyMaxR)
  let congestionAdjustment := 1 / congestion
  let raw := batchBaseR * rateFactor * latencyFactor * congestionAdjustment
  min batchMaxR (max batchMinR raw)

/-- The returned `uint32_t`: `static_cast<uint32_t>` truncates toward
zero, and the clamped value is nonnegative, so this is the natural-number
floor. -/
noncomputable def calculateAdaptiveBatchSize
    (rate avgRate latency congestion : ℝ) : ℕ :=
  ⌊calculateAdaptiveBatchSizeReal rate avgRate latency congestion⌋₊

/-- Modelled from the spec: the adaptive-size formula
`clamp(B_min, B_max, B_base × (λ(t)/λ_avg) × e^(−L(t)/L_max) / congestion)`
with the configured constants, used as the refinement comparator for the
code's computation. -/
noncomputable def specAdaptiveBatchSize
    (rate avgRate latency congestion : ℝ) : ℝ :=
  min 200 (max 50 (100 * (rate / avgRate) * Real.exp (-latency / 3) / congestion))

/-! ## Wire parsing of transactions -/

/-- Split on `':'` keeping empty segments, the raw field decomposition
that `std::getline(ss, part, ':')` produces before its end-of-stream
behavior is accounted for. -/
def splitCo : Str → List Str
  | [] => [[]]
  | c :: t =>
      if c = ':' then [] :: splitCo t
      else
        match splitCo t with
        | [] => [[c]]
        | h :: r => (c :: h) :: r

/-- Field list produced by the `while (std::getline(ss, part, ':'))` loops:
`getline` fails without yielding a part when the remainder is empty, so an
input that ends with the delimiter (or is empty) yields one fewer field
than plain splitting. -/
def getlineSplit (l : Str) : List Str :=
  let ps := splitCo l
  if ps.getLast? = some [] then ps.dropLast else ps

/-- The `EVT:` branch of `VanetBlockchainApp::ParseTransactionBatch`
(lines 2673-2691; the inline parser in `HandlePrePrepare`, lines
1630-1650, is character-for-character the same): require the `"EVT:"`
prefix and at least three `':'`-separated fields, take the event id and
verdict from fields 1 and 2, and default every other event field.  `none`
models the `parsed == false` path on which the transaction is dropped.
The `REG:`/`REP:` branches call `std::stod` and are not consulted by any
claim about this parser. -/
def parseEvtTxData (now : ℤ) (txData : Str) : Option Transaction :=
  if "EVT:".toList.isPrefixOf txData then
    let parts := getlineSplit txData
    if 3 ≤ parts.length then
      some { type := .EVENT_DECISION
             timestamp := now
             eventId_dec := parts.getD 1 []
             eventVerdict := parts.getD 2 []
             eventType := "Unknown".toList
             eventLocation := "Unknown".toList
             eventTimestamp := 0
             eventCredibility := 0 }
    else none
  else none

/-! ## Concrete example values used in counterexamples and witnesses -/

/-- Report claiming "Accident" for an event whose originating label is
"Jam", at the origin at time 0. -/
def rptClaimAccidentOrigJam : EventReport :=
  { vehicleId := "V1".toList
    reportedEventType := "Accident".toList
    originalEventType := "Jam".toList
    location := ⟨0, 0, 0⟩
    timestamp := 0
    signature := []
    seqNum := 0
    receivedTime := 0 }

/-- Open cluster with category "Accident" centred at the origin. -/
def clusterOpenAccident : EventCluster :=
  { eventId := "E1".toList
    eventType := "Accident".toList
    centerLocation := ⟨0, 0, 0⟩
    centerTime := 0
    reports := []
    creationTime := 0
    decisionMade := false }

/-- Report with originating label "Jam" near the origin. -/
def rptOrigJamNear : EventReport :=
  { vehicleId := "V1".toList
    reportedEventType := "Accident".toList
    originalEventType := "Jam".toList
    location := ⟨3, 4, 0⟩
    timestamp := 5
    signature := []
    seqNum := 0
    receivedTime := 0 }

/-- Open cluster with category "Jam" centred at the origin. -/
def clusterOpenJam : EventCluster :=
  { eventId := "E1".toList
    eventType := "Jam".toList
    centerLocation := ⟨0, 0, 0⟩
    centerTime := 0
    reports := []
    creationTime := 0
    decisionMade := false }

/-- One-report cluster used for decision examples. -/
def wCluster : EventCluster :=
  { eventId := "E2".toList
    eventType := "Jam".toList
    centerLocation := ⟨0, 0, 0⟩
    centerTime := 0
    reports := [rptOrigJamNear]
    creationTime := 0
    decisionMade := true }

/-- Chain linkage invariant of the spec: every block after the first
points at its predecessor's hash. -/
def chainLinked (chain : List VanetBlock) : Prop :=
  List.Chain' (fun a b => b.previousHash = a.blockHash) chain

/-- Genesis-like tip block used in chain examples. -/
def cexGenesis : VanetBlock := { blockHash := "G".toList }

/-- Height-1 block linking to `cexGenesis`, carrying hash "AAAA". -/
def cexBlockA : VanetBlock :=
  { height := 1
    timestamp := 0
    previousHash := "G".toList
    blockHash := "AAAA".toList
    proposerId := "RSU-0".toList
    transactions := [] }

/-- Identical content to `cexBlockA` but carrying hash "BBBB". -/
def cexBlockB : VanetBlock :=
  { height := 1
    timestamp := 0
    previousHash := "G".toList
    blockHash := "BBBB".toList
    proposerId := "RSU-0".toList
    transactions := [] }

/-- Candidate block for the PBFT commit example. -/
def pbftBlock1 : VanetBlock :=
  { height := 1
    timestamp := 0
    previousHash := "G".toList
    blockHash := "B1".toList
    proposerId := "RSU-0".toList
    transactions := [] }

/-- Round state for `pbftBlock1` holding two distinct commit votes, one
short of the `2f+1 = 3` quorum at `n = 4`. -/
def pbftRound1 : PbftBlockState :=
  { block := pbftBlock1
    phase := .COMMIT_SENT
    view := 0
    seqNum := 0
    proposerId := "RSU-0".toList
    prepareVotes := ["RSU-0".toList, "RSU-1".toList, "RSU-2".toList]
    commitVotes := ["RSU-0".toList, "RSU-1".toList] }

/-- Node state for the PBFT commit example: genesis-only chain and one
active round. -/
def pbftNode1 : NodeState :=
  { chain := [cexGenesis]
    active := [("B1".toList, pbftRound1)]
    pool := [] }

/-! ## Helper lemmas -/

theorem clamp01_nonneg (x : ℚ) : 0 ≤ clamp01 x := le_max_left 0 _

theorem clamp01_le_one (x : ℚ) : clamp01 x ≤ 1 :=
  max_le (by norm_num) (min_le_left 1 x)

theorem updateReputationStep_nonneg (alpha beta r : ℚ) (b : Bool) :
    0 ≤ updateReputationStep alpha beta r b := clamp01_nonneg _

theorem updateReputationStep_le_one (alpha beta r : ℚ) (b : Bool) :
    updateReputationStep alpha beta r b ≤ 1 := clamp01_le_one _

theorem applyOutcomes_cons (alpha beta r : ℚ) (b : Bool) (l : List Bool) :
    applyOutcomes alpha beta r (b :: l) =
      applyOutcomes alpha beta (updateReputationStep alpha beta r b) l := rfl

theorem applyOutcomes_mem (alpha beta : ℚ) :
    ∀ (l : List Bool) (r : ℚ), 0 ≤ r → r ≤ 1 →
      0 ≤ applyOutcomes alpha beta r l ∧ applyOutcomes alpha beta r l ≤ 1
  | [], r, h0, h1 => ⟨h0, h1⟩
  | b :: l, r, _, _ => by
      rw [applyOutcomes_cons]
      exact applyOutcomes_mem alpha beta l _
        (updateReputationStep_nonneg alpha beta r b)
        (updateReputationStep_le_one alpha beta r b)

theorem lookupQ_mem {l : List (Str × ℚ)} {key : Str} {r : ℚ}
    (h : lookupQ l key = some r) : ∃ p ∈ l, p.2 = r := by
  induction l with
  | nil => simp [lookupQ] at h
  | cons p t ih =>
      by_cases hk : p.1 = key
      · refine ⟨p, List.mem_cons_self .., ?_⟩
        simpa [lookupQ, hk] using h
      · obtain ⟨q, hq, hv⟩ := ih (by simpa [lookupQ, hk] using h)
        exact ⟨q, List.mem_cons_of_mem _ hq, hv⟩

/-! ## Claim theorems -/

/-- C3: each reputation update is `oldRep + α·(1 − oldRep)` on a correct
report and `oldRep − β·oldRep` on an incorrect one, clamped to [0,1]
(shown here with the spec's worked example `0.5 → 0.525` at `α = 0.05`),
and every sequence of reward/penalty applications starting from a
reputation in [0,1] keeps the stored reputation in [0,1]. -/
theorem reputation_update_rule_and_bounds :
    (∀ alpha beta oldRep : ℚ,
        updateReputationStep alpha beta oldRep true =
          clamp01 (oldRep + alpha * (1 - oldRep)) ∧
        updateReputationStep alpha beta oldRep false =
          clamp01 (oldRep - beta * oldRep)) ∧
    (∀ beta : ℚ, updateReputationStep mAlpha beta (1/2) true = 21/40) ∧
    (∀ (alpha beta rep0 : ℚ) (outcomes : List Bool),
        0 ≤ rep0 → rep0 ≤ 1 →
        0 ≤ applyOutcomes alpha beta rep0 outcomes ∧
          applyOutcomes alpha beta rep0 outcomes ≤ 1) := by
  refine ⟨fun alpha beta oldRep => ⟨rfl, ?_⟩, fun beta => ?_, ?_⟩
  · show clamp01 (oldRep + -(beta * oldRep)) = clamp01 (oldRep - beta * oldRep)
    rw [← sub_eq_add_neg]
  · simp only [updateReputationStep, clamp01, mAlpha]
    norm_num
  · exact fun alpha beta rep0 outcomes h0 h1 =>
      applyOutcomes_mem alpha beta outcomes rep0 h0 h1

/-- Witness for C3: the bound instantiated on a concrete run (start 0.5,
one reward then two penalties, with the configured rates). -/
theorem reputation_update_rule_and_bounds_witness :
    0 ≤ applyOutcomes mAlpha mBeta (1/2) [true, false, false] ∧
      applyOutcomes mAlpha mBeta (1/2) [true, false, false] ≤ 1 :=
  reputation_update_rule_and_bounds.2.2 mAlpha mBeta (1/2)
    [true, false, false] (by norm_num) (by norm_num)

/-- C7 counterexample: `HandleReputationRequest` answers `-1.0`, not the
default `0.5`, for a vehicle with no recorded reputation, and `-1.0` lies
outside [0,1]. -/
theorem reputation_request_unknown_counterexample :
    handleReputationRequestValue [] "V1".toList = -1 ∧
      ¬ (0 : ℚ) ≤ handleReputationRequestValue [] "V1".toList ∧
      handleReputationRequestValue [] "V1".toList ≠ 1/2 := by
  refine ⟨rfl, ?_, ?_⟩ <;> norm_num [handleReputationRequestValue, lookupQ]

/-- C7 (amended): a reputation query returns the stored value — which lies
in [0,1] whenever the stored reputations do — for a known vehicle, and the
sentinel `-1.0` for an unknown one; the internal reputation reads used by
the credibility and update code default to `0.5` for unknown vehicles. -/
theorem reputation_request_amended (reps : List (Str × ℚ)) (v : Str)
    (hbound : ∀ p ∈ reps, 0 ≤ p.2 ∧ p.2 ≤ 1) :
    (∀ r, lookupQ reps v = some r →
        handleReputationRequestValue reps v = r ∧ 0 ≤ r ∧ r ≤ 1) ∧
    (lookupQ reps v = none → handleReputationRequestValue reps v = -1) ∧
    (lookupQ reps v = none → getReputationInternal reps v = 1/2) := by
  refine ⟨fun r hr => ?_, fun hn => ?_, fun hn => ?_⟩
  · obtain ⟨p, hp, hv⟩ := lookupQ_mem hr
    exact ⟨by simp [handleReputationRequestValue, hr], hv ▸ (hbound p hp).1,
      hv ▸ (hbound p hp).2⟩
  · simp [handleReputationRequestValue, hn]
  · simp [getReputationInternal, hn]

/-- Witness for C7 (amended): a one-entry reputation map queried at its
key. -/
theorem reputation_request_amended_witness :
    handleReputationRequestValue [("V1".toList, 3/4)] "V1".toList = 3/4 ∧
      (0 : ℚ) ≤ 3/4 ∧ (3/4 : ℚ) ≤ 1 :=
  (reputation_request_amended [("V1".toList, 3/4)] "V1".toList
      (by intro p hp; simp at hp; simp [hp]; norm_num)).1 (3/4) rfl

theorem rpfParts_num_allfalse {h : List Bool} (ha : ∀ b ∈ h, b = false) :
    (rpfParts h).1 = 0 := by
  induction h with
  | nil => rfl
  | cons b t ih =>
      have hb : b = false := ha b (List.mem_cons_self ..)
      have ht : (rpfParts t).1 = 0 :=
        ih fun x hx => ha x (List.mem_cons_of_mem _ hx)
      simp [rpfParts, hb, ht, outcomeVal]

theorem volatilitySum_nonneg : ∀ h : List Bool, 0 ≤ volatilitySum h
  | [] => le_refl 0
  | [_] => le_refl 0
  | _ :: b :: t =>
      add_nonneg (abs_nonneg _) (volatilitySum_nonneg (b :: t))

theorem volatilityFactor_nonneg (h : List Bool) : 0 ≤ volatilityFactor h := by
  unfold volatilityFactor
  split
  · apply div_nonneg (volatilitySum_nonneg h)
    have : (1 : ℚ) < (h.length : ℚ) := by exact_mod_cast ‹1 < h.length›
    linarith
  · exact le_refl 0

/-- C8: a vehicle whose history is entirely incorrect and at least
`HISTORY_WINDOW_N` long has recency-weighted performance factor 0 and
suspicion at least `WEIGHT_RPF` (= w₁); a vehicle with no history has
suspicion 0. -/
theorem suspicion_allincorrect_and_empty :
    (∀ hist : List Bool, (∀ b ∈ hist, b = false) →
        HISTORY_WINDOW_N ≤ hist.length →
        calculateRPF hist = 0 ∧ WEIGHT_RPF ≤ calculateSuspicionScore hist) ∧
    calculateSuspicionScore [] = 0 := by
  refine ⟨fun hist ha hlen => ?_, rfl⟩
  have hrpf : calculateRPF hist = 0 := by
    show (if 0 < (rpfParts hist).2
        then (rpfParts hist).1 / (rpfParts hist).2 else 0) = 0
    rw [rpfParts_num_allfalse ha]
    split <;> simp
  refine ⟨hrpf, ?_⟩
  have hne : hist ≠ [] := by
    intro h
    rw [h] at hlen
    simp [HISTORY_WINDOW_N] at hlen
  unfold calculateSuspicionScore
  rw [if_neg hne, hrpf]
  have hv : 0 ≤ WEIGHT_VOL * volatilityFactor hist :=
    mul_nonneg (by norm_num [WEIGHT_VOL]) (volatilityFactor_nonneg hist)
  linarith

/-- Witness for C8: the full-window all-incorrect history. -/
theorem suspicion_allincorrect_witness :
    calculateRPF (List.replicate 20 false) = 0 ∧
      WEIGHT_RPF ≤ calculateSuspicionScore (List.replicate 20 false) :=
  suspicion_allincorrect_and_empty.1 (List.replicate 20 false)
    (by decide) (by decide)

theorem calculateAdaptiveBatchSizeReal_def
    (rate avgRate latency congestion : ℝ) :
    calculateAdaptiveBatchSizeReal rate avgRate latency congestion =
      min 200 (max 50 (100 * (if 0 < avgRate then rate / avgRate else 1) *
        Real.exp (-latency / 3) * (1 / congestion))) := rfl

/-- C9: the adaptive batch target always lies in `[B_min, B_max] =
[50, 200]`; for a positive average rate the pre-cast value equals the
spec's clamp formula `clamp(B_min, B_max, B_base × (λ(t)/λ_avg) ×
e^(−L(t)/L_max) / congestion)`; and with `λ(t) = λ_avg`, `L(t) = 0` and
congestion 1 the returned size is exactly `B_base = 100`. -/
theorem adaptive_batch_bounds_and_formula
    (rate avgRate latency congestion : ℝ) :
    (50 ≤ calculateAdaptiveBatchSize rate avgRate latency congestion ∧
      calculateAdaptiveBatchSize rate avgRate latency congestion ≤ 200) ∧
    (0 < avgRate →
      calculateAdaptiveBatchSizeReal rate avgRate latency congestion =
        specAdaptiveBatchSize rate avgRate latency congestion) ∧
    calculateAdaptiveBatchSize avgRate avgRate 0 1 = 100 := by
  refine ⟨⟨?_, ?_⟩, fun havg => ?_, ?_⟩
  · apply Nat.le_floor
    rw [calculateAdaptiveBatchSizeReal_def]
    push_cast
    exact le_min (by norm_num) (le_max_left _ _)
  · have h2 : calculateAdaptiveBatchSizeReal rate avgRate latency congestion
        ≤ 200 := by
      rw [calculateAdaptiveBatchSizeReal_def]
      exact min_le_left _ _
    calc calculateAdaptiveBatchSize rate avgRate latency congestion
        ≤ ⌊(200 : ℝ)⌋₊ := Nat.floor_le_floor h2
      _ = 200 := by norm_num
  · have hspec : specAdaptiveBatchSize rate avgRate latency congestion =
        min 200 (max 50 (100 * (rate / avgRate) *
          Real.exp (-latency / 3) / congestion)) := rfl
    rw [calculateAdaptiveBatchSizeReal_def, hspec, if_pos havg, mul_one_div]
  · have hone : (if 0 < avgRate then avgRate / avgRate else 1) = 1 := by
      split
      · exact div_self (ne_of_gt ‹0 < avgRate›)
      · rfl
    have hval : calculateAdaptiveBatchSizeReal avgRate avgRate 0 1 = 100 := by
      rw [calculateAdaptiveBatchSizeReal_def, hone]
      norm_num [Real.exp_zero]
    show ⌊calculateAdaptiveBatchSizeReal avgRate avgRate 0 1⌋₊ = 100
    rw [hval]
    norm_num

/-- Witness for C9, at the base operating point `λ(t) = λ_avg = 10`,
`L(t) = 0`, congestion 1. -/
theorem adaptive_batch_witness :
    (50 ≤ calculateAdaptiveBatchSize 10 10 0 1 ∧
      calculateAdaptiveBatchSize 10 10 0 1 ≤ 200) ∧
    calculateAdaptiveBatchSizeReal 10 10 0 1 =
      specAdaptiveBatchSize 10 10 0 1 ∧
    calculateAdaptiveBatchSize 10 10 0 1 = 100 :=
  ⟨(adaptive_batch_bounds_and_formula 10 10 0 1).1,
   (adaptive_batch_bounds_and_formula 10 10 0 1).2.1 (by norm_num),
   (adaptive_batch_bounds_and_formula 10 10 0 1).2.2⟩

theorem splitCo_no_colon : ∀ {l : Str}, ':' ∉ l → splitCo l = [l]
  | [], _ => rfl
  | c :: t, h => by
      have hc : ¬ c = ':' := fun hx => h (hx ▸ List.mem_cons_self ..)
      have ht : splitCo t = [t] :=
        splitCo_no_colon fun hx => h (List.mem_cons_of_mem _ hx)
      simp [splitCo, hc, ht]

theorem splitCo_append_colon :
    ∀ {a : Str} (b : Str), ':' ∉ a → splitCo (a ++ ':' :: b) = a :: splitCo b
  | [], b, _ => by simp [splitCo]
  | c :: t, b, h => by
      have hc : ¬ c = ':' := fun hx => h (hx ▸ List.mem_cons_self ..)
      have ht : splitCo (t ++ ':' :: b) = t :: splitCo b :=
        splitCo_append_colon b fun hx => h (List.mem_cons_of_mem _ hx)
      simp [splitCo, hc, ht]

theorem getlineSplit_evt (id v : Str) (hid : ':' ∉ id) (hv : ':' ∉ v)
    (hne : v ≠ []) :
    getlineSplit ("EVT:".toList ++ id ++ ":".toList ++ v) =
      ["EVT".toList, id, v] := by
  have h1 : "EVT:".toList ++ id ++ ":".toList ++ v =
      "EVT".toList ++ ':' :: (id ++ ':' :: v) := by
    simp
  have h2 : splitCo ("EVT".toList ++ ':' :: (id ++ ':' :: v)) =
      "EVT".toList :: splitCo (id ++ ':' :: v) :=
    splitCo_append_colon _ (by decide)
  have h3 : splitCo (id ++ ':' :: v) = id :: splitCo v :=
    splitCo_append_colon _ hid
  have h4 : splitCo v = [v] := splitCo_no_colon hv
  unfold getlineSplit
  rw [h1, h2, h3, h4]
  simp [hne]

/-- C10 counterexample: an EVENT_DECISION transaction whose event id
contains a `':'` does not round-trip — the parsed transaction's event id
is the part of the original id before the colon. -/
theorem evt_roundtrip_counterexample :
    (parseEvtTxData 0 (serializeTransaction
        { type := .EVENT_DECISION
          eventId_dec := "a:b".toList
          eventVerdict := "VALIDATED".toList })).map
        (fun t => t.eventId_dec) = some "a".toList ∧
      "a".toList ≠ "a:b".toList := by
  exact ⟨by decide, by decide⟩

/-- C10 (amended): for every EVENT_DECISION transaction whose event id
and verdict are `':'`-free and whose verdict is nonempty, serializing and
then parsing yields a transaction with the same `eventId_dec` and
`eventVerdict`, but with `eventType` and `eventLocation` replaced by
`"Unknown"`, `eventTimestamp` and `eventCredibility` zeroed, and the
supporting report list emptied (all remaining fields default-initialized);
the round trip does not restore the original transaction.  A colon inside
either field misaligns the parsed fields, and an empty verdict makes the
parser drop the transaction. -/
theorem evt_serialize_parse_amended (tx : Transaction) (now : ℤ)
    (hty : tx.type = .EVENT_DECISION)
    (hid : ':' ∉ tx.eventId_dec) (hv : ':' ∉ tx.eventVerdict)
    (hne : tx.eventVerdict ≠ []) :
    parseEvtTxData now (serializeTransaction tx) =
      some { type := .EVENT_DECISION
             timestamp := now
             eventId_dec := tx.eventId_dec
             eventVerdict := tx.eventVerdict
             eventType := "Unknown".toList
             eventLocation := "Unknown".toList
             eventTimestamp := 0
             eventCredibility := 0 } := by
  have hser : serializeTransaction tx =
      "EVT:".toList ++ tx.eventId_dec ++ ":".toList ++ tx.eventVerdict := by
    unfold serializeTransaction
    rw [hty]
    simp
  rw [hser]
  have hpre : ("EVT:".toList.isPrefixOf
      ("EVT:".toList ++ tx.eventId_dec ++ ":".toList ++ tx.eventVerdict)) =
        true := by
    rw [ List.isPrefixOf_iff_prefix]
    simp only [List.append_assoc]
    exact List.prefix_append _ _
  unfold parseEvtTxData
  rw [hpre, if_pos rfl, getlineSplit_evt _ _ hid hv hne]
  rfl

/-- Witness for C10 (amended): a concrete colon-free EVENT_DECISION
transaction round-trips to the lossy normal form. -/
theorem evt_serialize_parse_amended_witness :
    parseEvtTxData 7 (serializeTransaction
        { type := .EVENT_DECISION
          eventId_dec := "Evt_V1_5".toList
          eventType := "Accident".toList
          eventLocation := "1_2".toList
          eventTimestamp := 3
          eventReports := [("V1".toList, "Accident".toList)]
          eventVerdict := "VALIDATED".toList
          eventCredibility := 9/10 }) =
      some { type := .EVENT_DECISION
             timestamp := 7
             eventId_dec := "Evt_V1_5".toList
             eventVerdict := "VALIDATED".toList
             eventType := "Unknown".toList
             eventLocation := "Unknown".toList
             eventTimestamp := 0
             eventCredibility := 0 } :=
  evt_serialize_parse_amended _ 7 rfl (by decide) (by decide) (by decide)

theorem findMatchingCluster_cons (k : Str) (c : EventCluster)
    (t : List (Str × EventCluster)) (r : EventReport) :
    findMatchingCluster ((k, c) :: t) r =
      if c.decisionMade = false ∧ clusterMatch r c = true then some k
      else findMatchingCluster t r := rfl

theorem findMatchingCluster_eq_none_iff (cs : List (Str × EventCluster))
    (r : EventReport) :
    findMatchingCluster cs r = none ↔
      ∀ p ∈ cs, p.2.decisionMade = true ∨ clusterMatch r p.2 = false := by
  induction cs with
  | nil => simp [findMatchingCluster]
  | cons p t ih =>
      obtain ⟨k, c⟩ := p
      rw [findMatchingCluster_cons]
      by_cases hcond : c.decisionMade = false ∧ clusterMatch r c = true
      · rw [if_pos hcond]
        constructor
        · intro h; simp at h
        · intro hall
          exfalso
          rcases hall (k, c) (List.mem_cons_self ..) with h | h
          · simp [hcond.1] at h
          · simp [hcond.2] at h
      · rw [if_neg hcond, ih]
        have hkc : c.decisionMade = true ∨ clusterMatch r c = false := by
          by_cases hd : c.decisionMade = true
          · exact Or.inl hd
          · by_cases hm : clusterMatch r c = true
            · have hd' : c.decisionMade = false := by
                revert hd; cases c.decisionMade <;> simp
              exact absurd ⟨hd', hm⟩ hcond
            · exact Or.inr (by revert hm; cases clusterMatch r c <;> simp)
        constructor
        · intro hall p hp
          rcases List.mem_cons.mp hp with hpe | hp'
          · rw [hpe]; exact hkc
          · exact hall p hp'
        · intro hall p hp
          exact hall p (List.mem_cons_of_mem _ hp)

theorem findMatchingCluster_eq_some (cs : List (Str × EventCluster))
    (r : EventReport) (id : Str) (h : findMatchingCluster cs r = some id) :
    ∃ c, (id, c) ∈ cs ∧ c.decisionMade = false ∧ clusterMatch r c = true := by
  induction cs with
  | nil => simp [findMatchingCluster] at h
  | cons p t ih =>
      obtain ⟨k, c⟩ := p
      rw [findMatchingCluster_cons] at h
      by_cases hcond : c.decisionMade = false ∧ clusterMatch r c = true
      · rw [if_pos hcond] at h
        obtain rfl : k = id := by simpa using h
        exact ⟨c, List.mem_cons_self .., hcond.1, hcond.2⟩
      · rw [if_neg hcond] at h
        obtain ⟨c', hc', hd, hm⟩ := ih h
        exact ⟨c', List.mem_cons_of_mem _ hc', hd, hm⟩

/-- C6 counterexample: a report whose claimed category equals the
cluster's category (with distance 0 and time offset 0, both below the
thresholds, and the cluster still open) nevertheless does not join,
because `FindMatchingCluster` matches on the report's originating label
(`originalEventType`, here `"Jam"`), not the claimed one; a new cluster
is created instead. -/
theorem cluster_matching_counterexample :
    findMatchingCluster [("E1".toList, clusterOpenAccident)]
        rptClaimAccidentOrigJam = none ∧
    (rptClaimAccidentOrigJam.reportedEventType = clusterOpenAccident.eventType ∧
      distSq rptClaimAccidentOrigJam.location clusterOpenAccident.centerLocation
        < distanceThresholdSq ∧
      timeAbsDiff rptClaimAccidentOrigJam.timestamp clusterOpenAccident.centerTime
        < timeThresholdSteps ∧
      clusterOpenAccident.decisionMade = false) ∧
    processEventReport 0 [("E1".toList, clusterOpenAccident)]
        rptClaimAccidentOrigJam =
      [("E1".toList, clusterOpenAccident)] ++
        [(newClusterId rptClaimAccidentOrigJam,
          mkNewCluster 0 rptClaimAccidentOrigJam)] := by
  have hm : clusterMatch rptClaimAccidentOrigJam clusterOpenAccident = false := by
    simp only [clusterMatch, rptClaimAccidentOrigJam, clusterOpenAccident]
    rw [show typeMatch "Jam".toList "Accident".toList = false from by decide]
    simp
  have hfind : findMatchingCluster [("E1".toList, clusterOpenAccident)]
      rptClaimAccidentOrigJam = none := by
    rw [findMatchingCluster_cons, if_neg]
    · rfl
    · intro hc
      rw [hm] at hc
      exact absurd hc.2 (by simp)
  refine ⟨hfind, ⟨rfl, ?_, by decide, rfl⟩, ?_⟩
  · norm_num [distSq, distanceThresholdSq, rptClaimAccidentOrigJam,
      clusterOpenAccident]
  · unfold processEventReport
    rw [hfind]

/-- C6 (amended): a submitted report joins an existing open cluster
exactly when the cluster is not yet decided and its originating/ground
event category (`originalEventType`, not the claimed outcome category)
equals the cluster's category or is on the fixed equivalence list, its
distance from the centroid is below the distance threshold, and its time
offset from the cluster's reference time is below the time threshold;
otherwise a new cluster seeded with the report is created. -/
theorem cluster_matching_amended (now : ℤ) (cs : List (Str × EventCluster))
    (r : EventReport) :
    (∀ c : EventCluster, clusterMatch r c = true ↔
        (typeMatch r.originalEventType c.eventType = true ∧
          distSq r.location c.centerLocation < distanceThresholdSq ∧
          timeAbsDiff r.timestamp c.centerTime < timeThresholdSteps)) ∧
    (findMatchingCluster cs r = none ↔
        ∀ p ∈ cs, p.2.decisionMade = true ∨ clusterMatch r p.2 = false) ∧
    (∀ id, findMatchingCluster cs r = some id →
        ∃ c, (id, c) ∈ cs ∧ c.decisionMade = false ∧
          clusterMatch r c = true) ∧
    (findMatchingCluster cs r = none →
        processEventReport now cs r =
          cs ++ [(newClusterId r, mkNewCluster now r)]) ∧
    (∀ id, findMatchingCluster cs r = some id →
        processEventReport now cs r = appendReportToCluster cs id r) := by
  refine ⟨fun c => ?_, findMatchingCluster_eq_none_iff cs r,
    fun id h => findMatchingCluster_eq_some cs r id h,
    fun h => ?_, fun id h => ?_⟩
  · simp [clusterMatch, Bool.and_eq_true, decide_eq_true_eq, and_assoc]
  · unfold processEventReport
    rw [h]
  · unfold processEventReport
    rw [h]

/-- Witness for C6 (amended): a report whose originating category matches
an open cluster joins it. -/
theorem cluster_matching_amended_witness :
    (∃ c, ("E1".toList, c) ∈ [("E1".toList, clusterOpenJam)] ∧
        c.decisionMade = false ∧
        clusterMatch rptOrigJamNear c = true) ∧
    processEventReport 0 [("E1".toList, clusterOpenJam)] rptOrigJamNear =
      appendReportToCluster [("E1".toList, clusterOpenJam)] "E1".toList
        rptOrigJamNear := by
  have hm : clusterMatch rptOrigJamNear clusterOpenJam = true := by
    simp only [clusterMatch, rptOrigJamNear, clusterOpenJam,
      Bool.and_eq_true, decide_eq_true_eq]
    refine ⟨⟨by decide, ?_⟩, by decide⟩
    norm_num [distSq, distanceThresholdSq]
  have hfind : findMatchingCluster [("E1".toList, clusterOpenJam)]
      rptOrigJamNear = some "E1".toList := by
    rw [findMatchingCluster_cons, if_pos ⟨rfl, hm⟩]
  exact ⟨(cluster_matching_amended 0 _ _).2.2.1 "E1".toList hfind,
    (cluster_matching_amended 0 _ _).2.2.2.2 "E1".toList hfind⟩

theorem handleCommit_of_lookup_some (f : ℕ) (s : NodeState)
    (bh voter : Str) (st : PbftBlockState)
    (hlk : lookupP s.active bh = some st) :
    handleCommit f s bh voter =
      if st.phase = .COMMITTED then s
      else if voter ∈ st.commitVotes then s
      else if 2 * f + 1 ≤ (st.commitVotes ++ [voter]).length then
        { chain := addBlockToChain s.chain st.block
          active := eraseP s.active bh
          pool := s.pool.filter (fun ptx =>
            ¬ st.block.transactions.any
                (fun btx => serializeTransaction btx = serializeTransaction ptx)) }
      else
        { s with active := storeP s.active bh { st with commitVotes := st.commitVotes ++ [voter] } } := by
  unfold handleCommit
  rw [hlk]

theorem handleCommit_of_lookup_none (f : ℕ) (s : NodeState)
    (bh voter : Str) (hlk : lookupP s.active bh = none) :
    handleCommit f s bh voter = s := by
  unfold handleCommit
  rw [hlk]

theorem addBlockToChain_append (chain : List VanetBlock) (b : VanetBlock)
    (hprev : b.previousHash = lastBlockHash chain)
    (hnew : ∀ eb ∈ chain, eb.blockHash ≠ b.blockHash) :
    addBlockToChain chain b = chain ++ [b] := by
  unfold addBlockToChain
  have h2 : ¬ ((chain.any (fun eb => eb.blockHash = b.blockHash)) = true) := by
    simp only [List.any_eq_true, decide_eq_true_eq, not_exists]
    rintro eb ⟨hmem, heq⟩
    exact hnew eb hmem heq
  rw [if_neg (fun hcon => hcon hprev), if_neg h2]

theorem lookupP_eq_none_of_not_mem {l : List (Str × PbftBlockState)}
    {key : Str} (h : key ∉ l.map Prod.fst) : lookupP l key = none := by
  induction l with
  | nil => rfl
  | cons p t ih =>
      obtain ⟨k, v⟩ := p
      rw [List.map_cons, List.mem_cons, not_or] at h
      have hk : ¬ k = key := fun hx => h.1 hx.symm
      simpa [lookupP, hk] using ih h.2

theorem lookupP_eraseP {l : List (Str × PbftBlockState)} {key : Str}
    (h : (l.map Prod.fst).Nodup) : lookupP (eraseP l key) key = none := by
  induction l with
  | nil => rfl
  | cons p t ih =>
      obtain ⟨k, v⟩ := p
      simp only [List.map_cons, List.nodup_cons] at h
      by_cases hk : k = key
      · show lookupP (if k = key then t else (k, v) :: eraseP t key) key = none
        rw [if_pos hk]
        exact lookupP_eq_none_of_not_mem (hk ▸ h.1)
      · show lookupP (if k = key then t else (k, v) :: eraseP t key) key = none
        rw [if_neg hk]
        simpa [lookupP, hk] using ih h.2

/-- C1: with `f = (n−1)/3` derived from the replica count `n ≥ 1`, a
`HandleCommit` step on an active round whose block links to the chain tip
and is not yet in the chain appends the block if and only if the round
then has at least `2f+1` distinct commit voters (the round not already
committed and the voter fresh); in every other case the chain is
unchanged; on success the round state is destroyed, and a commit vote for
a hash with no active round — in particular one whose round was just
destroyed — is a complete no-op, so a second quorum cannot append
again. -/
theorem handleCommit_quorum (n : ℕ) (hn : 1 ≤ n) (s : NodeState)
    (bh voter : Str) (st : PbftBlockState)
    (hlk : lookupP s.active bh = some st)
    (hprev : st.block.previousHash = lastBlockHash s.chain)
    (hnew : ∀ b ∈ s.chain, b.blockHash ≠ st.block.blockHash)
    (hkeys : (s.active.map Prod.fst).Nodup) :
    (computeF n = (n - 1) / 3) ∧
    ((handleCommit (computeF n) s bh voter).chain = s.chain ++ [st.block] ↔
      (st.phase ≠ .COMMITTED ∧ voter ∉ st.commitVotes ∧
        2 * computeF n + 1 ≤ st.commitVotes.length + 1)) ∧
    ((st.phase = .COMMITTED ∨ voter ∈ st.commitVotes ∨
        st.commitVotes.length + 1 < 2 * computeF n + 1) →
      (handleCommit (computeF n) s bh voter).chain = s.chain) ∧
    ((st.phase ≠ .COMMITTED ∧ voter ∉ st.commitVotes ∧
        2 * computeF n + 1 ≤ st.commitVotes.length + 1) →
      lookupP (handleCommit (computeF n) s bh voter).active bh = none) ∧
    (∀ bh2 voter2, lookupP s.active bh2 = none →
      handleCommit (computeF n) s bh2 voter2 = s) := by
  have hred := handleCommit_of_lookup_some (computeF n) s bh voter st hlk
  have hlen : (st.commitVotes ++ [voter]).length = st.commitVotes.length + 1 := by
    simp
  refine ⟨by unfold computeF; rw [if_pos (by omega : 0 < n)], ?_, ?_, ?_,
    fun bh2 voter2 hnone => handleCommit_of_lookup_none _ _ _ _ hnone⟩
  · by_cases h1 : st.phase = .COMMITTED
    · rw [hred, if_pos h1]
      constructor
      · intro heq
        simp at heq
      · rintro ⟨hph, -, -⟩
        exact absurd h1 hph
    · by_cases h2 : voter ∈ st.commitVotes
      · rw [hred, if_neg h1, if_pos h2]
        constructor
        · intro heq
          simp at heq
        · rintro ⟨-, hv, -⟩
          exact absurd h2 hv
      · by_cases h3 : 2 * computeF n + 1 ≤ st.commitVotes.length + 1
        · rw [hred, if_neg h1, if_neg h2, if_pos (by rw [hlen]; exact h3)]
          show addBlockToChain s.chain st.block = s.chain ++ [st.block] ↔ _
          rw [addBlockToChain_append s.chain st.block hprev hnew]
          simp [h1, h2, h3]
        · rw [hred, if_neg h1, if_neg h2, if_neg (by rw [hlen]; exact h3)]
          constructor
          · intro heq
            simp at heq
          · rintro ⟨-, -, hq⟩
            exact absurd hq h3
  · intro hcase
    by_cases h1 : st.phase = .COMMITTED
    · rw [hred, if_pos h1]
    · by_cases h2 : voter ∈ st.commitVotes
      · rw [hred, if_neg h1, if_pos h2]
      · rcases hcase with hc | hc | hc
        · exact absurd hc h1
        · exact absurd hc h2
        · rw [hred, if_neg h1, if_neg h2, if_neg (by rw [hlen]; omega)]
  · rintro ⟨h1, h2, h3⟩
    rw [hred, if_neg h1, if_neg (fun hx => h2 hx), if_pos (by rw [hlen]; exact h3)]
    exact lookupP_eraseP hkeys

/-- Witness for C1: `n = 4` replicas (`f = 1`, quorum 3), a round with two
recorded commit votes; the third distinct vote appends the block and
destroys the round. -/
theorem handleCommit_quorum_witness :
    (handleCommit (computeF 4) pbftNode1 "B1".toList "RSU-3".toList).chain =
        pbftNode1.chain ++ [pbftBlock1] ∧
      lookupP (handleCommit (computeF 4) pbftNode1 "B1".toList
          "RSU-3".toList).active "B1".toList = none := by
  have h := handleCommit_quorum 4 (by norm_num) pbftNode1 "B1".toList
    "RSU-3".toList pbftRound1 rfl rfl
    (by
      rintro b hb
      rw [show pbftNode1.chain = [cexGenesis] from rfl, List.mem_singleton] at hb
      subst hb
      decide)
    (by
      rw [show pbftNode1.active = [("B1".toList, pbftRound1)] from rfl]
      simp)
  have hcond : pbftRound1.phase ≠ PbftPhase.COMMITTED ∧
      "RSU-3".toList ∉ pbftRound1.commitVotes ∧
      2 * computeF 4 + 1 ≤ pbftRound1.commitVotes.length + 1 := by
    refine ⟨by decide, by decide, by decide⟩
  exact ⟨h.2.1.mpr hcond, h.2.2.2.1 hcond⟩

/-- C2 counterexample: two blocks with byte-identical hash pre-images
(`blockContents`) but different claimed `blockHash` values are both
accepted and appended by `AddBlockToChain`.  The recomputed content hash
is `SHA-256 ∘ blockContents`, a function of the content alone, so the two
appended blocks have equal recomputed hashes while their stored hashes
differ — at most one of them can satisfy
`blockHash = recompute(contents)`; hence the hash-recomputation condition
is not checked before acceptance (the acceptance path checks only the
previous-hash linkage and hash-duplication). -/
theorem chain_hash_check_counterexample :
    addBlockToChain [cexGenesis] cexBlockA = [cexGenesis] ++ [cexBlockA] ∧
    addBlockToChain [cexGenesis] cexBlockB = [cexGenesis] ++ [cexBlockB] ∧
    blockContents cexBlockA = blockContents cexBlockB ∧
    cexBlockA.blockHash ≠ cexBlockB.blockHash := by
  have ha := addBlockToChain_append [cexGenesis] cexBlockA rfl
    (by
      rintro eb heb
      rw [List.mem_singleton] at heb
      subst heb
      decide)
  have hb := addBlockToChain_append [cexGenesis] cexBlockB rfl
    (by
      rintro eb heb
      rw [List.mem_singleton] at heb
      subst heb
      decide)
  exact ⟨ha, hb, rfl, by decide⟩

/-- C2 (amended): before a block is accepted into the chain only the
previous-hash linkage (against the current tip) and hash-duplication are
checked — `AddBlockToChain` rejects a block whose `previousHash` differs
from the tip's hash — and consequently every chain reachable by appends
preserves the linkage invariant `b.previousHash = predecessor.blockHash`
for all blocks after the first; the content-hash recomputation
`b.blockHash = recompute(b)` is not checked on the acceptance path and is
not an invariant of the committed chain. -/
theorem chain_linkage_amended (chain : List VanetBlock) (b : VanetBlock)
    (hl : chainLinked chain) :
    chainLinked (addBlockToChain chain b) ∧
    (b.previousHash ≠ lastBlockHash chain → addBlockToChain chain b = chain) := by
  constructor
  · by_cases h1 : b.previousHash ≠ lastBlockHash chain
    · unfold addBlockToChain
      rw [if_pos h1]
      exact hl
    · by_cases h2 : (chain.any (fun eb => eb.blockHash = b.blockHash)) = true
      · unfold addBlockToChain
        rw [if_neg h1, if_pos h2]
        exact hl
      · unfold addBlockToChain
        rw [if_neg h1, if_neg h2]
        have hprev : b.previousHash = lastBlockHash chain := not_not.mp h1
        rw [chainLinked, List.chain'_append]
        refine ⟨hl, List.chain'_singleton _, ?_⟩
        intro x hx y hy
        have hyb : b = y := by simpa using hy
        subst hyb
        have hlast : lastBlockHash chain = x.blockHash := by
          unfold lastBlockHash
          rw [show chain.getLast? = some x from hx]
        rw [hprev, hlast]
  · intro h1
    unfold addBlockToChain
    rw [if_pos h1]

/-- Witness for C2 (amended): appending a correctly linked block to a
singleton chain preserves linkage. -/
theorem chain_linkage_amended_witness :
    chainLinked (addBlockToChain [cexGenesis] cexBlockA) ∧
    (cexBlockA.previousHash ≠ lastBlockHash [cexGenesis] →
      addBlockToChain [cexGenesis] cexBlockA = [cexGenesis]) :=
  chain_linkage_amended [cexGenesis] cexBlockA (List.chain'_singleton _)

theorem reputationTxFor_spec (now : ℤ) (eid : Str) (st : LedgerState)
    (r : EventReport) (g : Str) :
    (reputationTxFor now eid st r g).type = .REPUTATION_UPDATE ∧
    (reputationTxFor now eid st r g).vehicleId_rep = r.vehicleId ∧
    (reputationTxFor now eid st r g).eventId_rep = eid ∧
    (reputationTxFor now eid st r g).newReputation =
      updateReputationStep mAlpha mBeta
        (reputationTxFor now eid st r g).oldReputation
        (decide (r.reportedEventType = g)) :=
  ⟨rfl, rfl, rfl, rfl⟩

theorem updateReputationsFold_length (now : ℤ) (eid g : Str) :
    ∀ (rs : List EventReport) (st : LedgerState),
      (updateReputationsFold now eid g st rs).2.length = rs.length
  | [], _ => rfl
  | r :: rest, st =>
      congrArg (· + 1)
        (updateReputationsFold_length now eid g rest (ledgerStep st r g))

theorem updateReputationsFold_get (now : ℤ) (eid g : Str) :
    ∀ (rs : List EventReport) (st : LedgerState) (i : ℕ)
      (hi : i < rs.length)
      (hti : i < (updateReputationsFold now eid g st rs).2.length),
      ∃ strep : LedgerState,
        (updateReputationsFold now eid g st rs).2.get ⟨i, hti⟩ =
          reputationTxFor now eid strep (rs.get ⟨i, hi⟩) g
  | [], _, i, hi, _ => absurd hi (by simp)
  | _ :: _, st, 0, _, _ => ⟨st, rfl⟩
  | r :: rest, st, Nat.succ i, hi, hti => by
      have hi' : i < rest.length := Nat.lt_of_succ_lt_succ (by simpa using hi)
      have hti' : i <
          (updateReputationsFold now eid g (ledgerStep st r g) rest).2.length :=
        Nat.lt_of_succ_lt_succ (by simpa [updateReputationsFold] using hti)
      obtain ⟨strep, hst⟩ :=
        updateReputationsFold_get now eid g rest (ledgerStep st r g) i hi' hti'
      exact ⟨strep, hst⟩

theorem verdictOf_cases (st : LedgerState) (rs : List EventReport) :
    verdictOf st rs = "VALIDATED".toList ∨
      verdictOf st rs = "UNCERTAIN".toList := by
  unfold verdictOf
  split
  · exact Or.inl rfl
  · exact Or.inr rfl

theorem calculateEventCredibility_of_ne (now : ℤ) (st : LedgerState)
    (c : EventCluster) (hne : c.reports ≠ []) :
    calculateEventCredibility now st c =
      ((updateReputations now st c (verdictOf st c.reports)
          (winningClaim st c.reports)).1,
        mkEventDecisionTx now c (winningClaim st c.reports)
          (verdictOf st c.reports) (maxConfidence st c.reports)
          (c.reports.map (fun r => (r.vehicleId, r.reportedEventType))) ::
        (updateReputations now st c (verdictOf st c.reports)
          (winningClaim st c.reports)).2) := by
  unfold calculateEventCredibility
  rw [if_neg hne]

/-- C4: when a non-empty cluster is decided, the emitted transaction list
always starts with the EventDecision transaction carrying the winning
outcome, the verdict and the winning confidence; the verdict is either
`"VALIDATED"` or `"UNCERTAIN"`; on `"UNCERTAIN"` the ledger (reputations
and histories) is unchanged and no ReputationUpdate transaction is
emitted; on `"VALIDATED"` the reward/penalty step runs once per report in
the cluster, emitting one ReputationUpdate per report whose new
reputation is the reward/penalty update of its old reputation with
correctness judged by comparing the report's claimed outcome against the
winning outcome (not the true ground truth). -/
theorem event_decision_side_effects (now : ℤ) (st : LedgerState)
    (c : EventCluster) (hne : c.reports ≠ []) :
    (calculateEventCredibility now st c).2 =
        mkEventDecisionTx now c (winningClaim st c.reports)
          (verdictOf st c.reports) (maxConfidence st c.reports)
          (c.reports.map (fun r => (r.vehicleId, r.reportedEventType))) ::
        (updateReputations now st c (verdictOf st c.reports)
          (winningClaim st c.reports)).2 ∧
    (verdictOf st c.reports = "VALIDATED".toList ∨
      verdictOf st c.reports = "UNCERTAIN".toList) ∧
    (verdictOf st c.reports = "UNCERTAIN".toList →
      (calculateEventCredibility now st c).1 = st ∧
      (calculateEventCredibility now st c).2 =
        [mkEventDecisionTx now c (winningClaim st c.reports)
          (verdictOf st c.reports) (maxConfidence st c.reports)
          (c.reports.map (fun r => (r.vehicleId, r.reportedEventType)))]) ∧
    (verdictOf st c.reports = "VALIDATED".toList →
      updateReputations now st c (verdictOf st c.reports)
          (winningClaim st c.reports) =
        updateReputationsFold now c.eventId (winningClaim st c.reports) st
          c.reports ∧
      (calculateEventCredibility now st c).1 =
        (updateReputationsFold now c.eventId (winningClaim st c.reports) st
          c.reports).1 ∧
      (updateReputationsFold now c.eventId (winningClaim st c.reports) st
          c.reports).2.length = c.reports.length ∧
      ∀ (i : ℕ) (hi : i < c.reports.length)
        (hti : i < (updateReputationsFold now c.eventId
            (winningClaim st c.reports) st c.reports).2.length),
        ((updateReputationsFold now c.eventId (winningClaim st c.reports) st
            c.reports).2.get ⟨i, hti⟩).type = .REPUTATION_UPDATE ∧
        ((updateReputationsFold now c.eventId (winningClaim st c.reports) st
            c.reports).2.get ⟨i, hti⟩).vehicleId_rep =
          (c.reports.get ⟨i, hi⟩).vehicleId ∧
        ((updateReputationsFold now c.eventId (winningClaim st c.reports) st
            c.reports).2.get ⟨i, hti⟩).newReputation =
          updateReputationStep mAlpha mBeta
            ((updateReputationsFold now c.eventId (winningClaim st c.reports)
                st c.reports).2.get ⟨i, hti⟩).oldReputation
            (decide ((c.reports.get ⟨i, hi⟩).reportedEventType =
              winningClaim st c.reports))) := by
  have hcr := calculateEventCredibility_of_ne now st c hne
  refine ⟨by rw [hcr], verdictOf_cases st c.reports, fun hu => ?_, fun hv => ?_⟩
  · have hvne : verdictOf st c.reports ≠ "VALIDATED".toList := by
      rw [hu]
      decide
    have hupd : updateReputations now st c (verdictOf st c.reports)
        (winningClaim st c.reports) = (st, []) := by
      unfold updateReputations
      rw [if_pos hvne]
    exact ⟨by rw [hcr, hupd], by rw [hcr, hupd]⟩
  · have hupd : updateReputations now st c (verdictOf st c.reports)
        (winningClaim st c.reports) =
        updateReputationsFold now c.eventId (winningClaim st c.reports) st
          c.reports := by
      unfold updateReputations
      rw [if_neg (fun hcon => hcon hv)]
    refine ⟨hupd, by rw [hcr, hupd],
      updateReputationsFold_length now c.eventId _ c.reports st,
      fun i hi hti => ?_⟩
    obtain ⟨strep, hst⟩ := updateReputationsFold_get now c.eventId
      (winningClaim st c.reports) c.reports st i hi hti
    rw [hst]
    exact ⟨rfl, rfl, rfl⟩

/-- Witness for C4: the decision on a concrete one-report cluster over an
empty ledger emits the EventDecision transaction first and yields one of
the two verdicts. -/
theorem event_decision_side_effects_witness :
    (calculateEventCredibility 0 ⟨[], []⟩ wCluster).2 =
        mkEventDecisionTx 0 wCluster (winningClaim ⟨[], []⟩ wCluster.reports)
          (verdictOf ⟨[], []⟩ wCluster.reports)
          (maxConfidence ⟨[], []⟩ wCluster.reports)
          (wCluster.reports.map (fun r => (r.vehicleId, r.reportedEventType))) ::
        (updateReputations 0 ⟨[], []⟩ wCluster
          (verdictOf ⟨[], []⟩ wCluster.reports)
          (winningClaim ⟨[], []⟩ wCluster.reports)).2 ∧
    (verdictOf ⟨[], []⟩ wCluster.reports = "VALIDATED".toList ∨
      verdictOf ⟨[], []⟩ wCluster.reports = "UNCERTAIN".toList) :=
  ⟨(event_decision_side_effects 0 ⟨[], []⟩ wCluster
      (by rw [show wCluster.reports = [rptOrigJamNear] from rfl]; simp)).1,
   (event_decision_side_effects 0 ⟨[], []⟩ wCluster
      (by rw [show wCluster.reports = [rptOrigJamNear] from rfl]; simp)).2.1⟩

theorem sum_filter_split {α : Type} (P : α → Prop) [DecidablePred P]
    (g : α → ℚ) (l : List α) :
    ((l.filter (fun a => P a)).map g).sum +
      ((l.filter (fun a => ¬ P a)).map g).sum = (l.map g).sum := by
  induction l with
  | nil => simp
  | cons a t ih =>
      by_cases hp : P a
      · simp [List.filter_cons, hp, decide_not] at ih ⊢
        linarith [ih]
      · simp [List.filter_cons, hp, decide_not] at ih ⊢
        linarith [ih]

theorem uniqueFirst_cons (c : Str) (t : List Str) :
    uniqueFirst (c :: t) = c :: uniqueFirst (t.filter (fun x => x ≠ c)) := by
  simp [uniqueFirst]

theorem mem_uniqueFirst : ∀ (m : List Str) (x : Str),
    x ∈ uniqueFirst m ↔ x ∈ m
  | [], x => by simp [uniqueFirst]
  | c :: t, x => by
      have ih := mem_uniqueFirst (t.filter (fun y => y ≠ c)) x
      rw [uniqueFirst_cons, List.mem_cons, ih, List.mem_cons]
      constructor
      · rintro (rfl | hx)
        · exact Or.inl rfl
        · exact Or.inr (List.mem_of_mem_filter hx)
      · rintro (rfl | hx)
        · exact Or.inl rfl
        · by_cases hxc : x = c
          · exact Or.inl hxc
          · exact Or.inr (List.mem_filter.mpr ⟨hx, by simpa using hxc⟩)
termination_by m _ => m.length
decreasing_by
  simp only [List.length_cons]
  exact Nat.lt_succ_of_le (List.length_filter_le _ _)

theorem nodup_uniqueFirst : ∀ m : List Str, (uniqueFirst m).Nodup
  | [] => by simp [uniqueFirst]
  | c :: t => by
      rw [uniqueFirst_cons, List.nodup_cons]
      refine ⟨fun hc => ?_, nodup_uniqueFirst (t.filter (fun x => x ≠ c))⟩
      have hmem := (mem_uniqueFirst _ _).mp hc
      have := List.of_mem_filter hmem
      simp at this
termination_by m => m.length
decreasing_by
  simp only [List.length_cons]
  exact Nat.lt_succ_of_le (List.length_filter_le _ _)

theorem sum_filter_partition {α : Type} (f : α → Str) (g : α → ℚ) :
    ∀ (cs : List Str), cs.Nodup → ∀ (l : List α), (∀ a ∈ l, f a ∈ cs) →
      (cs.map (fun cc => ((l.filter (fun a => f a = cc)).map g).sum)).sum =
        (l.map g).sum := by
  intro cs
  induction cs with
  | nil =>
      intro _ l hall
      have hl : l = [] := by
        cases l with
        | nil => rfl
        | cons a t => exact absurd (hall a (List.mem_cons_self ..)) (by simp)
      subst hl
      simp
  | cons cc cs' ih =>
      intro hnd l hall
      rw [List.nodup_cons] at hnd
      obtain ⟨hcc, hnd'⟩ := hnd
      rw [List.map_cons, List.sum_cons]
      have hmap : cs'.map
            (fun c2 => ((l.filter (fun a => f a = c2)).map g).sum) =
          cs'.map (fun c2 =>
            (((l.filter (fun a => ¬ (f a = cc))).filter
                (fun a => f a = c2)).map g).sum) := by
        apply List.map_congr_left
        intro c2 hc2
        have hne : ¬ c2 = cc := fun h => hcc (h ▸ hc2)
        have hfe : l.filter (fun a => f a = c2) =
            (l.filter (fun a => ¬ (f a = cc))).filter
              (fun a => f a = c2) := by
          rw [List.filter_filter]
          apply List.filter_congr
          intro a _
          by_cases hfa : f a = c2
          · have hnc : ¬ (f a = cc) := fun hx => hne (hfa ▸ hx ▸ rfl)
            simp [hfa, hnc, hne]
          · simp [hfa]
        rw [hfe]
      have hside : ∀ a ∈ l.filter (fun a => ¬ (f a = cc)), f a ∈ cs' := by
        intro a ha
        have hal : a ∈ l := List.mem_of_mem_filter ha
        have hanc : ¬ (f a = cc) := by simpa using List.of_mem_filter ha
        have hmem := hall a hal
        rw [List.mem_cons] at hmem
        rcases hmem with h | h
        · exact absurd h hanc
        · exact h
      rw [hmap, ih hnd' (l.filter (fun a => ¬ (f a = cc))) hside]
      exact sum_filter_split (fun a => f a = cc) g l

theorem foldl_min_le_init {α : Type} (f : α → ℚ) :
    ∀ (l : List α) (init : ℚ),
      l.foldl (fun m r => min m (f r)) init ≤ init
  | [], _ => le_refl _
  | a :: t, init =>
      le_trans (foldl_min_le_init f t (min init (f a))) (min_le_left _ _)

theorem foldl_min_le_mem {α : Type} (f : α → ℚ) :
    ∀ (l : List α) (init : ℚ) (r : α), r ∈ l →
      l.foldl (fun m r => min m (f r)) init ≤ f r
  | a :: t, init, r, hr => by
      rcases List.mem_cons.mp hr with hra | hr'
      · subst hra
        exact le_trans (foldl_min_le_init f t _) (min_le_right _ _)
      · exact foldl_min_le_mem f t _ r hr'

theorem foldl_min_ge {α : Type} (f : α → ℚ) (b : ℚ) :
    ∀ (l : List α) (init : ℚ), b ≤ init → (∀ r ∈ l, b ≤ f r) →
      b ≤ l.foldl (fun m r => min m (f r)) init
  | [], _, hb, _ => hb
  | a :: t, init, hb, hall =>
      foldl_min_ge f b t (min init (f a))
        (le_min hb (hall a (List.mem_cons_self ..)))
        (fun r hr => hall r (List.mem_cons_of_mem _ hr))

theorem le_foldl_max_init {α : Type} (f : α → ℚ) :
    ∀ (l : List α) (init : ℚ),
      init ≤ l.foldl (fun m r => max m (f r)) init
  | [], _ => le_refl _
  | a :: t, init =>
      le_trans (le_max_left _ _) (le_foldl_max_init f t (max init (f a)))

theorem le_foldl_max_mem {α : Type} (f : α → ℚ) :
    ∀ (l : List α) (init : ℚ) (r : α), r ∈ l →
      f r ≤ l.foldl (fun m r => max m (f r)) init
  | a :: t, init, r, hr => by
      rcases List.mem_cons.mp hr with hra | hr'
      · subst hra
        exact le_trans (le_max_right _ _) (le_foldl_max_init f t _)
      · exact le_foldl_max_mem f t _ r hr'

theorem foldl_max_attained {α : Type} (f : α → ℚ) :
    ∀ (l : List α) (init : ℚ),
      l.foldl (fun m r => max m (f r)) init = init ∨
        ∃ r ∈ l, l.foldl (fun m r => max m (f r)) init = f r
  | [], _ => Or.inl rfl
  | a :: t, init => by
      rcases foldl_max_attained f t (max init (f a)) with h | ⟨r, hr, hfr⟩
      · rcases le_total init (f a) with hle | hle
        · exact Or.inr ⟨a, List.mem_cons_self ..,
            by rw [show (a :: t).foldl (fun m r => max m (f r)) init =
                t.foldl (fun m r => max m (f r)) (max init (f a)) from rfl,
              h, max_eq_right hle]⟩
        · exact Or.inl (by
            rw [show (a :: t).foldl (fun m r => max m (f r)) init =
                t.foldl (fun m r => max m (f r)) (max init (f a)) from rfl,
              h, max_eq_left hle])
      · exact Or.inr ⟨r, List.mem_cons_of_mem _ hr, hfr⟩

theorem rpfParts_bounds : ∀ h : List Bool,
    0 ≤ (rpfParts h).1 ∧ (rpfParts h).1 ≤ (rpfParts h).2 ∧ 0 ≤ (rpfParts h).2
  | [] => by norm_num [rpfParts]
  | b :: t => by
      obtain ⟨h1, h2, h3⟩ := rpfParts_bounds t
      have hw : (0 : ℚ) < DECAY_GAMMA ^ t.length :=
        pow_pos (by norm_num [DECAY_GAMMA]) _
      have hv : 0 ≤ outcomeVal b ∧ outcomeVal b ≤ 1 := by
        cases b <;> norm_num [outcomeVal]
      refine ⟨?_, ?_, ?_⟩
      · exact add_nonneg h1 (mul_nonneg hv.1 hw.le)
      · exact add_le_add h2 (by nlinarith [hv.2, hw.le])
      · exact add_nonneg h3 hw.le

theorem calculateRPF_bounds (h : List Bool) :
    0 ≤ calculateRPF h ∧ calculateRPF h ≤ 1 := by
  obtain ⟨h1, h2, h3⟩ := rpfParts_bounds h
  show 0 ≤ (if 0 < (rpfParts h).2
      then (rpfParts h).1 / (rpfParts h).2 else 0) ∧
    (if 0 < (rpfParts h).2 then (rpfParts h).1 / (rpfParts h).2 else 0) ≤ 1
  split
  · exact ⟨div_nonneg h1 h3, (div_le_one ‹0 < (rpfParts h).2›).mpr h2⟩
  · norm_num

theorem volatilitySum_le : ∀ (a : Bool) (t : List Bool),
    volatilitySum (a :: t) ≤ (t.length : ℚ)
  | _, [] => by norm_num [volatilitySum]
  | a, b :: t => by
      have ih := volatilitySum_le b t
      have habs : |outcomeVal b - outcomeVal a| ≤ 1 := by
        cases a <;> cases b <;> norm_num [outcomeVal]
      show |outcomeVal b - outcomeVal a| + volatilitySum (b :: t) ≤
        ((b :: t).length : ℚ)
      rw [List.length_cons]
      push_cast
      linarith

theorem volatilityFactor_le_one (h : List Bool) : volatilityFactor h ≤ 1 := by
  unfold volatilityFactor
  split
  · cases h with
    | nil => simp_all
    | cons a t =>
        rename_i hlen
        rw [List.length_cons] at hlen ⊢
        have ht : 1 ≤ t.length := Nat.lt_succ_iff.mp hlen
        rw [div_le_one]
        · push_cast
          have := volatilitySum_le a t
          linarith
        · push_cast
          have : (1 : ℚ) ≤ t.length := by exact_mod_cast ht
          linarith
  · norm_num

theorem suspicion_bounds (h : List Bool) :
    0 ≤ calculateSuspicionScore h ∧ calculateSuspicionScore h ≤ 1 := by
  unfold calculateSuspicionScore
  split
  · norm_num
  · have h1 := calculateRPF_bounds h
    have h2 := volatilityFactor_nonneg h
    have h3 := volatilityFactor_le_one h
    simp only [WEIGHT_RPF, WEIGHT_VOL]
    constructor <;> nlinarith [h1.1, h1.2]

theorem getReputationInternal_bounds (reps : List (Str × ℚ))
    (hrep : ∀ p ∈ reps, 0 ≤ p.2 ∧ p.2 ≤ 1) (v : Str) :
    0 ≤ getReputationInternal reps v ∧ getReputationInternal reps v ≤ 1 := by
  unfold getReputationInternal
  cases hlk : lookupQ reps v with
  | none => norm_num
  | some r =>
      obtain ⟨p, hp, hv⟩ := lookupQ_mem hlk
      exact ⟨hv ▸ (hrep p hp).1, hv ▸ (hrep p hp).2⟩

theorem rawTrustFactor_bounds (st : LedgerState)
    (hrep : ∀ p ∈ st.reps, 0 ≤ p.2 ∧ p.2 ≤ 1) (v : Str) :
    0 ≤ rawTrustFactor st v ∧ rawTrustFactor st v ≤ 1 := by
  obtain ⟨hr0, hr1⟩ := getReputationInternal_bounds st.reps hrep v
  obtain ⟨hs0, hs1⟩ := suspicion_bounds (historyOf st.hists v)
  unfold rawTrustFactor
  constructor
  · exact mul_nonneg hr0 (by linarith)
  · exact mul_le_one₀ hr1 (by linarith) (by linarith)

theorem sumTAll_pos (st : LedgerState) (rs : List EventReport)
    (hne : rs ≠ []) (hrep : ∀ p ∈ st.reps, 0 ≤ p.2 ∧ p.2 ≤ 1) :
    0 < sumTAll st rs := by
  by_cases hdeg : |tMaxOf st rs - tMinOf st rs| < 1/1000000
  · have hnorm : ∀ v, normTrust st rs v = 1/2 := fun v => by
      unfold normTrust
      rw [if_pos hdeg]
    unfold sumTAll
    have hmapeq : rs.map (fun r => normTrust st rs r.vehicleId) =
        rs.map (fun _ => (1/2 : ℚ)) :=
      List.map_congr_left fun r _ => hnorm _
    rw [hmapeq]
    apply List.sum_pos
    · intro x hx
      rw [List.mem_map] at hx
      obtain ⟨r, -, rfl⟩ := hx
      norm_num
    · simpa using hne
  · have hbounds : ∀ r ∈ rs, 0 ≤ rawTrustFactor st r.vehicleId ∧
        rawTrustFactor st r.vehicleId ≤ 1 :=
      fun r _ => rawTrustFactor_bounds st hrep r.vehicleId
    have hminle : ∀ r ∈ rs, tMinOf st rs ≤ rawTrustFactor st r.vehicleId :=
      fun r hr => foldl_min_le_mem _ rs 1 r hr
    have hmaxge : ∀ r ∈ rs, rawTrustFactor st r.vehicleId ≤ tMaxOf st rs :=
      fun r hr => le_foldl_max_mem _ rs 0 r hr
    obtain ⟨a, ha⟩ := List.exists_mem_of_ne_nil rs hne
    have hminmax : tMinOf st rs ≤ tMaxOf st rs :=
      le_trans (hminle a ha) (hmaxge a ha)
    have hdiffpos : 0 < tMaxOf st rs - tMinOf st rs := by
      rcases eq_or_lt_of_le hminmax with heq | hlt
      · exfalso
        apply hdeg
        rw [← heq]
        simp
      · linarith
    rcases foldl_max_attained (fun r => rawTrustFactor st r.vehicleId) rs 0
      with hA | ⟨r0, hr0, hA⟩
    · have hmin0 : 0 ≤ tMinOf st rs :=
        foldl_min_ge _ 0 rs 1 (by norm_num) (fun r hr => (hbounds r hr).1)
      have hTmax0 : tMaxOf st rs = 0 := hA
      exfalso
      linarith
    · have hTmax : tMaxOf st rs = rawTrustFactor st r0.vehicleId := hA
      have hnormnn : ∀ r ∈ rs, 0 ≤ normTrust st rs r.vehicleId := by
        intro r hr
        unfold normTrust
        rw [if_neg hdeg]
        exact div_nonneg (by linarith [hminle r hr]) (le_of_lt hdiffpos)
      have hnorm1 : normTrust st rs r0.vehicleId = 1 := by
        unfold normTrust
        rw [if_neg hdeg, ← hTmax]
        exact div_self (ne_of_gt hdiffpos)
      unfold sumTAll
      have hmem1 : (1 : ℚ) ∈ rs.map (fun r => normTrust st rs r.vehicleId) :=
        hnorm1 ▸ List.mem_map_of_mem _ hr0
      have hle := List.single_le_sum
        (l := rs.map (fun r => normTrust st rs r.vehicleId))
        (by
          intro x hx
          rw [List.mem_map] at hx
          obtain ⟨r, hr, rfl⟩ := hx
          exact hnormnn r hr)
        1 hmem1
      linarith

/-- C5: for every non-empty cluster at decision time, with the stored
reputations within [0,1] (the ledger invariant), the per-label confidence
values summed over all distinct claimed labels equal exactly 1 — both in
the degenerate min-max-normalization case where every member's normalized
trust defaults to 0.5 and in the general case. -/
theorem confidence_normalization (st : LedgerState) (c : EventCluster)
    (hne : c.reports ≠ [])
    (hrep : ∀ p ∈ st.reps, 0 ≤ p.2 ∧ p.2 ≤ 1) :
    ((uniqueClaimsOf c.reports).map (claimConfidence st c.reports)).sum = 1 := by
  have hS := sumTAll_pos st c.reports hne hrep
  have hconf : ∀ cc ∈ uniqueClaimsOf c.reports,
      claimConfidence st c.reports cc =
        supportSum st c.reports cc / sumTAll st c.reports := by
    intro cc _
    unfold claimConfidence
    rw [if_pos hS]
  rw [List.map_congr_left hconf]
  have hdiv : ((uniqueClaimsOf c.reports).map
      (fun cc => supportSum st c.reports cc / sumTAll st c.reports)).sum =
      ((uniqueClaimsOf c.reports).map
        (fun cc => supportSum st c.reports cc)).sum / sumTAll st c.reports := by
    simp only [div_eq_mul_inv]
    exact List.sum_map_mul_right _ _ _
  rw [hdiv]
  have hpart : ((uniqueClaimsOf c.reports).map
      (fun cc => supportSum st c.reports cc)).sum = sumTAll st c.reports := by
    unfold uniqueClaimsOf supportSum sumTAll
    exact sum_filter_partition (fun r => r.reportedEventType)
      (fun r => normTrust st c.reports r.vehicleId)
      (uniqueFirst (c.reports.map (fun r => r.reportedEventType)))
      (nodup_uniqueFirst _) c.reports
      (fun a ha => (mem_uniqueFirst _ _).mpr (List.mem_map_of_mem _ ha))
  rw [hpart, div_self (ne_of_gt hS)]

/-- Witness for C5: the one-report cluster over the empty ledger. -/
theorem confidence_normalization_witness :
    ((uniqueClaimsOf wCluster.reports).map
      (claimConfidence ⟨[], []⟩ wCluster.reports)).sum = 1 :=
  confidence_normalization ⟨[], []⟩ wCluster
    (by rw [show wCluster.reports = [rptOrigJamNear] from rfl]; simp)
    (by intro p hp; simp at hp)

end VndnBc
